import Mathlib

/-!
Verification development for `src/sentsem.py` (repository SentSem).

The file gives a shallow embedding of the module's single algorithmic
function `sentsem(sent1, sent2)` together with its helper `pos(tag)`.
External NLTK collaborators (tokenizer, POS tagger, lemmatizer, the `lesk`
word-sense disambiguator, WordNet path similarity, the stopword list) are
modelled as fields of a `Collab` record: the embedding is parametric in
them, exactly as the Python code is parametric in the behaviour of the
NLTK library.  Machine floats are modelled as rationals; a Python run that
raises an exception (`AttributeError` on `None.path_similarity`,
`ZeroDivisionError` on `0/0`, numpy's zero-size reduction error) is
modelled as the value `none : Option ℚ`.
-/

namespace SentSem

/-- Result of `str.lower()` on the Python side: lowercase every character.
Modelled character-wise with `Char.toLower`, which agrees with Python's
`str.lower` on ASCII text. -/
def strLower (s : String) : String :=
  ⟨s.data.map Char.toLower⟩

/-- Result of Python's `tag.startswith(p)`: `p` is a leading substring of
`tag`.  Stated on the character lists so that it computes by structural
recursion. -/
def strBegins (p tag : String) : Bool :=
  p.data.isPrefixOf tag.data

/-- Embedding of `pos(tag)` (src/sentsem.py lines 37-52): map a Penn
treebank tag to a WordNet part-of-speech letter.  WordNet's constants are
the strings `"n"`, `"a"`, `"v"`, `"r"` (and `"s"` for satellite
adjectives, used only in the fallback). -/
def pos (tag : String) : String :=
  if strBegins "N" tag || tag == "MD" then "n"
  else if strBegins "J" tag then "a"
  else if strBegins "V" tag then "v"
  else if strBegins "RB" tag then "r"
  else ""

/-- External collaborators used by `sentsem`, as a record.  `σ` is the
opaque type of WordNet synset handles.

* `tokenize` — `RegexpTokenizer(r'\w+').tokenize` (line 31);
* `posTag` — `nltk.pos_tag` (lines 93-94);
* `lemmatize` — `lemmatizer.lemmatize(word)`, the call with no POS hint,
  which is the only form the source invokes (lines 97-98);
* `lemmatizePos` — `lemmatizer.lemmatize(word, pos)`, the category-hinted
  form, which the NLTK lemmatizer also offers but the source never calls;
* `lesk` — `nltk.wsd.lesk(context, word, pos)` returning a synset or
  `None` (lines 101-109);
* `pathSim` — `synset.path_similarity(other)` returning a float or `None`
  (line 128);
* `stopwords` — `stopwords.words('english')` (line 34). -/
structure Collab (σ : Type) where
  tokenize : String → List String
  posTag : List String → List (String × String)
  lemmatize : String → String
  lemmatizePos : String → String → String
  lesk : String → String → String → Option σ
  pathSim : σ → σ → Option ℚ
  stopwords : List String

variable {σ : Type}

/-- Steps 1-3 of `sentsem` (lines 81-90): lowercase the sentence,
tokenize it, and drop stopwords.  `List.filter` keeps every occurrence of
a repeated non-stopword. -/
def tokensOf (C : Collab σ) (sent : String) : List String :=
  (C.tokenize (strLower sent)).filter (fun w => !decide (w ∈ C.stopwords))

/-- Step 4 of `sentsem` (lines 93-94): tag the filtered tokens and map the
raw tags through `pos`. -/
def taggedOf (C : Collab σ) (sent : String) : List (String × String) :=
  (C.posTag (tokensOf C sent)).map (fun wp => (wp.1, pos wp.2))

/-- Step 5 of `sentsem` (lines 97-98): lemmatize each token.  The source
calls `lemmatizer.lemmatize(word)` with no POS argument, so the category
`wp.2` is carried along but not consulted. -/
def lemmedOf (C : Collab σ) (sent : String) : List (String × String) :=
  (taggedOf C sent).map (fun wp => (C.lemmatize wp.1, wp.2))

/-- Step 6 of `sentsem` (lines 101-109): resolve each (lemma, category)
pair to a synset by calling `lesk` with context `ctx`; when the primary
call returns `None`, retry with the satellite-adjective category `"s"`
and the (possibly different) fallback context `fb`. -/
def senseResolve (lesk : String → String → String → Option σ) (ctx fb : String)
    (text : List (String × String)) : List (String × Option σ) :=
  text.map (fun wp =>
    match lesk ctx wp.1 wp.2 with
    | some s => (wp.1, some s)
    | none => (wp.1, lesk fb wp.1 "s"))

/-- `sensed1` of the source (lines 101-106): both the primary context and
the fallback context are sentence 1 (lowercased at line 81). -/
def sensed1Of (C : Collab σ) (s1 : String) : List (String × Option σ) :=
  senseResolve C.lesk (strLower s1) (strLower s1) (lemmedOf C s1)

/-- `sensed2` of the source (lines 107-109): the primary context is
sentence 2, but the fallback context is sentence 1 (`lesk(sent1, word,
's')` on line 108). -/
def sensed2Of (C : Collab σ) (s1 s2 : String) : List (String × Option σ) :=
  senseResolve C.lesk (strLower s2) (strLower s1) (lemmedOf C s2)

/-- `synsets1` of the source (line 113). -/
def synsets1Of (C : Collab σ) (s1 : String) : List (Option σ) :=
  (sensed1Of C s1).map (fun ws => ws.2)

/-- `synsets2` of the source (line 114). -/
def synsets2Of (C : Collab σ) (s1 s2 : String) : List (Option σ) :=
  (sensed2Of C s1 s2).map (fun ws => ws.2)

/-- Effectful map over a list in the `Option` monad: the Python `for`
loops abort with an exception (`none`) as soon as one iteration does. -/
def mapOpt (f : α → Option β) : List α → Option (List β)
  | [] => some []
  | a :: l => (f a).bind (fun b => (mapOpt f l).map (fun bs => b :: bs))

/-- One cell of the similarity matrix (lines 128-136): when both synsets
are concrete the cell is `path_similarity`, with `None` replaced by `0`;
when either synset is `None` the Python attribute access
`synset.path_similarity` raises, modelled as `none`. -/
def cell (ps : σ → σ → Option ℚ) (o1 o2 : Option σ) : Option ℚ :=
  match o1, o2 with
  | some a, some b => some ((ps a b).getD 0)
  | _, _ => none

/-- Steps 7-8 of `sentsem` (lines 124-136): the double loop filling the
`len1 × len2` matrix, row-major.  No null-sense filtering happens: the
rows range over all of `synsets1` and the columns over all of
`synsets2`. -/
def buildMatrix (ps : σ → σ → Option ℚ) (l1 l2 : List (Option σ)) :
    Option (List (List ℚ)) :=
  mapOpt (fun o1 => mapOpt (fun o2 => cell ps o1 o2) l2) l1

/-- Maximum of a row or column, as numpy computes it: the reduction has
no identity, so an empty reduction raises (`none`). -/
def npMax : List ℚ → Option ℚ
  | [] => none
  | x :: xs => some (xs.foldl max x)

/-- `sim_matrix.max(axis=1)` (line 142): one maximum per row. -/
def rowMaxima (M : List (List ℚ)) : Option (List ℚ) :=
  mapOpt npMax M

/-- Column `j` of the matrix, read off the row list. -/
def column (M : List (List ℚ)) (j : ℕ) : List ℚ :=
  M.filterMap (fun row => row.get? j)

/-- `sim_matrix.max(axis=0)` (line 148): one maximum per column; the
matrix has `len2` columns. -/
def colMaxima (M : List (List ℚ)) (len2 : ℕ) : Option (List ℚ) :=
  mapOpt (fun j => npMax (column M j)) (List.range len2)

/-- Steps 9-10 of `sentsem` (lines 138-150): branch on `len1 < len2`, sum
the per-row (resp. per-column) maxima, and return
`(2*sim_sum)/(len1+len2)`.  The division raises `ZeroDivisionError` when
`len1 + len2 == 0`, modelled by the explicit guard. -/
def aggregate (M : List (List ℚ)) (len1 len2 : ℕ) : Option ℚ :=
  if len1 < len2 then
    (rowMaxima M).bind (fun ms =>
      if len1 + len2 = 0 then none
      else some (2 * ms.sum / ((len1 + len2 : ℕ) : ℚ)))
  else
    (colMaxima M len2).bind (fun ms =>
      if len1 + len2 = 0 then none
      else some (2 * ms.sum / ((len1 + len2 : ℕ) : ℚ)))

/-- Embedding of `sentsem(sent1, sent2)` (lines 55-150), assembled from
the stage functions above in source order.  `len1` and `len2` are the
full lengths of `sensed1` and `sensed2` (lines 117-118). -/
def sentsem (C : Collab σ) (s1 s2 : String) : Option ℚ :=
  (buildMatrix C.pathSim (synsets1Of C s1) (synsets2Of C s1 s2)).bind
    (fun M => aggregate M (sensed1Of C s1).length (sensed2Of C s1 s2).length)

/-- Follows the spec's words (§4.4 and claim C1), not the source: drop
null-sense entries first, then build a dense `|usable_A| × |usable_B|`
matrix.  Declared only to be compared against `buildMatrix`, the
embedding of the code. -/
def buildMatrixSpecC1 (ps : σ → σ → Option ℚ) (l1 l2 : List (Option σ)) :
    List (List ℚ) :=
  l1.reduceOption.map (fun a => l2.reduceOption.map (fun b => (ps a b).getD 0))

/-- Follows the spec's words (§4.2 and claim C5), not the source:
lemmatize each token with its resolved category as the hint, falling back
to the no-hint form only for the empty (unknown) category, which is the
one category the external lemmatizer has no rule for.  Declared only to
be compared against `lemmedOf`, the embedding of the code. -/
def lemmedOfSpecC5 (C : Collab σ) (sent : String) : List (String × String) :=
  (taggedOf C sent).map (fun wp =>
    (if wp.2 = "" then C.lemmatize wp.1 else C.lemmatizePos wp.1 wp.2, wp.2))

/-- Helper for the witness tokenizer: cut a character list at spaces,
accumulating the current word reversed. -/
def splitChars : List Char → List Char → List String
  | [], [] => []
  | [], cur => [⟨cur.reverse⟩]
  | c :: rest, cur =>
      if c = ' ' then
        (if cur.isEmpty then splitChars rest []
         else ⟨cur.reverse⟩ :: splitChars rest [])
      else splitChars rest (c :: cur)

/-- Witness tokenizer: the space-separated words of a string. -/
def wordsOf (s : String) : List String :=
  splitChars s.data []

/-- Base concrete instantiation of the collaborators, used by the witness
and counterexample theorems: every word is tagged as a noun, lemmas are
the words themselves, every word resolves to synset `0`, and every path
similarity is `1`. -/
def Cbase : Collab ℕ where
  tokenize := wordsOf
  posTag := fun l => l.map (fun w => (w, "NN"))
  lemmatize := fun w => w
  lemmatizePos := fun w _ => w
  lesk := fun _ _ _ => some 0
  pathSim := fun _ _ => some 1
  stopwords := ["the", "of", "a", "an"]

/-- Concrete path similarity that is always defined and equal to 1. -/
def psOne : ℕ → ℕ → Option ℚ := fun _ _ => some 1

/-- Concrete path similarity defined only on equal synsets. -/
def psMix : ℕ → ℕ → Option ℚ := fun a b => if a == b then some 1 else none

/-- Collaborators for the C3 counterexample: the word `"dog"` never
resolves to a sense, every other word resolves to synset 0. -/
def CW3 : Collab ℕ :=
  { Cbase with lesk := fun _ w _ => if w == "dog" then none else some 0 }

/-- Collaborators for C4: the disambiguator only answers when the context
it receives is the lowercased string `"the cat"`. -/
def CW4 : Collab ℕ :=
  { Cbase with lesk := fun ctx _ _ => if ctx == "the cat" then some 0 else none }

/-- Variant of `CW4.lesk` that agrees with it at every context except the
lowercased `"the cat"`; in particular the two agree at the original
(non-lowercased) sentence `"The cat"`, where both return `none`. -/
def CW4n : Collab ℕ :=
  { Cbase with lesk := fun _ _ _ => none }

/-- Second disambiguator for the C4 witness: agrees with `CW4.lesk`
whenever the context is `"the cat"` (there both return `some 0`) and
differs everywhere else. -/
def leskW4b : String → String → String → Option ℕ :=
  fun ctx _ _ => if ctx == "the cat" then some 0 else some 5

/-- Collaborators for C5: tokens are tagged as gerund verbs, the no-hint
lemmatizer is the identity, and the category-hinted lemmatizer maps
`"running"` with the verb hint to `"run"`. -/
def CW5 : Collab ℕ :=
  { Cbase with
    posTag := fun l => l.map (fun w => (w, "VBG"))
    lemmatizePos := fun w p => if p == "v" && w == "running" then "run" else w }

/-- Collaborators for C6: the disambiguator answers only satellite
(`"s"`) queries whose context is the lowercased `"the cat"`. -/
def CW6 : Collab ℕ :=
  { Cbase with
    lesk := fun ctx _ p => if ctx == "the cat" && p == "s" then some 7 else none }

/-- Second disambiguator for the C6 witness: agrees with `CW6.lesk` on
every query with context `"dog"` and on every satellite query with
context `"the cat"`, and differs on non-satellite queries at context
`"the cat"`. -/
def leskW6b : String → String → String → Option ℕ :=
  fun ctx _ p =>
    if ctx == "the cat" && p == "s" then some 7
    else if ctx == "the cat" then some 3 else none

/-- Collaborators for C9: `"cat"` resolves to synset 0, every other word
to synset 1; path similarity is 1 on the diagonal and 0 elsewhere. -/
def CW9 : Collab ℕ :=
  { Cbase with
    lesk := fun _ w _ => if w == "cat" then some 0 else some 1
    pathSim := fun a b => if a == b then some 1 else some 0 }

section Helpers

variable {α β γ : Type}

theorem mapOpt_cons (f : α → Option β) (a : α) (l : List α) :
    mapOpt f (a :: l) = (f a).bind (fun b => (mapOpt f l).map (fun bs => b :: bs)) :=
  rfl

theorem mapOpt_length {f : α → Option β} :
    ∀ {l : List α} {l' : List β}, mapOpt f l = some l' → l'.length = l.length := by
  intro l
  induction l with
  | nil =>
    intro l' h
    simp only [mapOpt, Option.some.injEq] at h
    subst h
    rfl
  | cons a t ih =>
    intro l' h
    rw [mapOpt_cons] at h
    cases hfa : f a with
    | none => rw [hfa] at h; simp at h
    | some b =>
      rw [hfa] at h
      cases hft : mapOpt f t with
      | none => rw [hft] at h; simp at h
      | some bs =>
        rw [hft] at h
        simp only [Option.some_bind, Option.map_some', Option.some.injEq] at h
        subst h
        simp [ih hft]

theorem mapOpt_mem {f : α → Option β} :
    ∀ {l : List α} {l' : List β}, mapOpt f l = some l' →
      ∀ y ∈ l', ∃ x ∈ l, f x = some y := by
  intro l
  induction l with
  | nil =>
    intro l' h y hy
    simp only [mapOpt, Option.some.injEq] at h
    subst h
    cases hy
  | cons a t ih =>
    intro l' h y hy
    rw [mapOpt_cons] at h
    cases hfa : f a with
    | none => rw [hfa] at h; simp at h
    | some b =>
      rw [hfa] at h
      cases hft : mapOpt f t with
      | none => rw [hft] at h; simp at h
      | some bs =>
        rw [hft] at h
        simp only [Option.some_bind, Option.map_some', Option.some.injEq] at h
        subst h
        rcases List.mem_cons.mp hy with rfl | hy'
        · exact ⟨a, List.mem_cons_self a t, hfa⟩
        · obtain ⟨x, hx, hfx⟩ := ih hft y hy'
          exact ⟨x, List.mem_cons_of_mem a hx, hfx⟩

theorem mapOpt_none_of_mem {f : α → Option β} {l : List α} {x : α}
    (hx : x ∈ l) (hfx : f x = none) : mapOpt f l = none := by
  induction l with
  | nil => cases hx
  | cons a t ih =>
    rw [mapOpt_cons]
    rcases List.mem_cons.mp hx with rfl | hx'
    · rw [hfx]; rfl
    · cases hfa : f a with
      | none => rfl
      | some b => rw [ih hx']; rfl

theorem mapOpt_map_eq {h : γ → α} {f : α → Option β} {g : γ → β} :
    ∀ {l : List γ}, (∀ c ∈ l, f (h c) = some (g c)) →
      mapOpt f (l.map h) = some (l.map g) := by
  intro l
  induction l with
  | nil => intro _; rfl
  | cons c t ih =>
    intro H
    rw [List.map_cons, mapOpt_cons, H c (List.mem_cons_self c t),
      ih (fun x hx => H x (List.mem_cons_of_mem c hx))]
    rfl

theorem mapOpt_all_some {f : α → Option β} {g : α → β} :
    ∀ {l : List α}, (∀ x ∈ l, f x = some (g x)) → mapOpt f l = some (l.map g) := by
  intro l
  induction l with
  | nil => intro _; rfl
  | cons a t ih =>
    intro H
    rw [mapOpt_cons, H a (List.mem_cons_self a t),
      ih (fun x hx => H x (List.mem_cons_of_mem a hx))]
    rfl

theorem mapCongr {f g : α → β} :
    ∀ {l : List α}, (∀ a ∈ l, f a = g a) → l.map f = l.map g := by
  intro l
  induction l with
  | nil => intro _; rfl
  | cons a t ih =>
    intro h
    rw [List.map_cons, List.map_cons, h a (List.mem_cons_self a t),
      ih (fun x hx => h x (List.mem_cons_of_mem a hx))]

theorem foldl_max_mem : ∀ (xs : List ℚ) (x : ℚ), xs.foldl max x ∈ x :: xs := by
  intro xs
  induction xs with
  | nil => intro x; simp
  | cons y ys ih =>
    intro x
    rw [List.foldl_cons]
    rcases List.mem_cons.mp (ih (max x y)) with h | h
    · rw [h]
      rcases max_choice x y with hm | hm <;> rw [hm] <;> simp
    · simp [List.mem_cons_of_mem, h]

theorem le_foldl_max_seed : ∀ (xs : List ℚ) {x y : ℚ}, y ≤ x → y ≤ xs.foldl max x := by
  intro xs
  induction xs with
  | nil => intro x y h; simpa using h
  | cons z zs ih =>
    intro x y h
    rw [List.foldl_cons]
    exact ih (le_trans h (le_max_left x z))

theorem le_foldl_max_mem : ∀ (xs : List ℚ) (x : ℚ) {y : ℚ}, y ∈ xs → y ≤ xs.foldl max x := by
  intro xs
  induction xs with
  | nil => intro x y h; cases h
  | cons z zs ih =>
    intro x y h
    rw [List.foldl_cons]
    rcases List.mem_cons.mp h with rfl | h'
    · exact le_foldl_max_seed zs (le_max_right x y)
    · exact ih (max x z) h'

theorem npMax_mem {l : List ℚ} {m : ℚ} (h : npMax l = some m) : m ∈ l := by
  cases l with
  | nil => simp [npMax] at h
  | cons x xs =>
    simp only [npMax, Option.some.injEq] at h
    subst h
    exact foldl_max_mem xs x

theorem npMax_ge {l : List ℚ} {m x : ℚ} (h : npMax l = some m) (hx : x ∈ l) : x ≤ m := by
  cases l with
  | nil => cases hx
  | cons y ys =>
    simp only [npMax, Option.some.injEq] at h
    subst h
    rcases List.mem_cons.mp hx with rfl | h'
    · exact le_foldl_max_seed ys le_rfl
    · exact le_foldl_max_mem ys y h'

theorem npMax_eq_one {l : List ℚ} (hle : ∀ x ∈ l, x ≤ 1) (hmem : (1 : ℚ) ∈ l) :
    npMax l = some 1 := by
  cases l with
  | nil => cases hmem
  | cons x xs =>
    simp only [npMax, Option.some.injEq]
    exact le_antisymm
      (hle _ (foldl_max_mem xs x))
      (npMax_ge (l := x :: xs) rfl hmem)

theorem listSum_nonneg : ∀ {l : List ℚ}, (∀ x ∈ l, 0 ≤ x) → 0 ≤ l.sum := by
  intro l
  induction l with
  | nil => intro _; simp
  | cons x t ih =>
    intro h
    rw [List.sum_cons]
    have hx := h x (List.mem_cons_self x t)
    have ht := ih (fun y hy => h y (List.mem_cons_of_mem x hy))
    linarith

theorem listSum_le_len : ∀ {l : List ℚ}, (∀ x ∈ l, x ≤ 1) → l.sum ≤ (l.length : ℚ) := by
  intro l
  induction l with
  | nil => intro _; simp
  | cons x t ih =>
    intro h
    rw [List.sum_cons, List.length_cons]
    have hx := h x (List.mem_cons_self x t)
    have ht := ih (fun y hy => h y (List.mem_cons_of_mem x hy))
    push_cast
    linarith

theorem sum_map_one : ∀ (l : List α), (l.map (fun _ => (1 : ℚ))).sum = (l.length : ℚ) := by
  intro l
  induction l with
  | nil => simp
  | cons a t ih =>
    rw [List.map_cons, List.sum_cons, List.length_cons, ih]
    push_cast
    ring

theorem cell_none_left (ps : σ → σ → Option ℚ) (o : Option σ) : cell ps none o = none := by
  cases o <;> rfl

theorem cell_none_right (ps : σ → σ → Option ℚ) (o : Option σ) : cell ps o none = none := by
  cases o <;> rfl

theorem buildMatrix_map_some (ps : σ → σ → Option ℚ) (l1 l2 : List σ) :
    buildMatrix ps (l1.map some) (l2.map some)
      = some (l1.map (fun a => l2.map (fun b => (ps a b).getD 0))) := by
  unfold buildMatrix
  exact mapOpt_map_eq (fun a _ => mapOpt_map_eq (fun b _ => rfl))

theorem buildMatrix_cell_bounds {ps : σ → σ → Option ℚ}
    (hps : ∀ a b v, ps a b = some v → 0 ≤ v ∧ v ≤ 1)
    {l1 l2 : List (Option σ)} {M : List (List ℚ)}
    (hM : buildMatrix ps l1 l2 = some M) :
    ∀ row ∈ M, ∀ x ∈ row, 0 ≤ x ∧ x ≤ 1 := by
  intro row hrow x hx
  obtain ⟨o1, _, hrow'⟩ := mapOpt_mem hM row hrow
  obtain ⟨o2, _, hcell⟩ := mapOpt_mem hrow' x hx
  cases o1 with
  | none => rw [cell_none_left] at hcell; cases hcell
  | some a =>
    cases o2 with
    | none => rw [cell_none_right] at hcell; cases hcell
    | some b =>
      simp only [cell, Option.some.injEq] at hcell
      subst hcell
      cases hv : ps a b with
      | none => simp
      | some v => simpa using hps a b v hv

theorem column_of_map (l1 : List γ) (h : γ → List ℚ) (c : γ → ℚ) (j : ℕ)
    (hc : ∀ b, (h b).get? j = some (c b)) :
    column (l1.map h) j = l1.map c := by
  induction l1 with
  | nil => rfl
  | cons b t ih =>
    rw [List.map_cons, List.map_cons]
    unfold column at ih ⊢
    rw [List.filterMap_cons, hc b, ih]

theorem aggregate_bounds {M : List (List ℚ)} {len1 len2 : ℕ} {r : ℚ}
    (hcell : ∀ row ∈ M, ∀ x ∈ row, 0 ≤ x ∧ x ≤ 1)
    (hlen : M.length = len1)
    (hr : aggregate M len1 len2 = some r) : 0 ≤ r ∧ r ≤ 1 := by
  unfold aggregate at hr
  by_cases h : len1 < len2
  · rw [if_pos h] at hr
    cases hms : rowMaxima M with
    | none => rw [hms] at hr; cases hr
    | some ms =>
      rw [hms] at hr
      rw [Option.some_bind, if_neg (by omega)] at hr
      have hmb : ∀ m ∈ ms, 0 ≤ m ∧ m ≤ 1 := by
        intro m hm
        obtain ⟨row, hrow, hmax⟩ := mapOpt_mem hms m hm
        exact hcell row hrow m (npMax_mem hmax)
      have hlms : ms.length = len1 := by rw [mapOpt_length hms, hlen]
      have h0 : 0 ≤ ms.sum := listSum_nonneg (fun x hx => (hmb x hx).1)
      have h1 : ms.sum ≤ (len1 : ℚ) := by
        have := listSum_le_len (fun x hx => (hmb x hx).2)
        rwa [hlms] at this
      have hD : (0 : ℚ) < ((len1 + len2 : ℕ) : ℚ) := by
        exact_mod_cast Nat.pos_of_ne_zero (by omega)
      have hle : (len1 : ℚ) ≤ (len2 : ℚ) := by exact_mod_cast le_of_lt h
      rw [Option.some.injEq] at hr
      subst hr
      constructor
      · exact div_nonneg (by linarith) hD.le
      · rw [div_le_one hD]
        push_cast
        linarith
  · rw [if_neg h] at hr
    cases hms : colMaxima M len2 with
    | none => rw [hms] at hr; cases hr
    | some ms =>
      rw [hms] at hr
      by_cases hz : len1 + len2 = 0
      · rw [Option.some_bind, if_pos hz] at hr; cases hr
      · rw [Option.some_bind, if_neg hz] at hr
        have hmb : ∀ m ∈ ms, 0 ≤ m ∧ m ≤ 1 := by
          intro m hm
          obtain ⟨j, _, hmax⟩ := mapOpt_mem hms m hm
          have hmem := npMax_mem hmax
          unfold column at hmem
          obtain ⟨row, hrow, hget⟩ := List.mem_filterMap.mp hmem
          exact hcell row hrow m (List.get?_mem hget)
        have hlms : ms.length = len2 := by
          rw [mapOpt_length hms, List.length_range]
        have h0 : 0 ≤ ms.sum := listSum_nonneg (fun x hx => (hmb x hx).1)
        have h1 : ms.sum ≤ (len2 : ℚ) := by
          have := listSum_le_len (fun x hx => (hmb x hx).2)
          rwa [hlms] at this
        have hD : (0 : ℚ) < ((len1 + len2 : ℕ) : ℚ) := by
          exact_mod_cast Nat.pos_of_ne_zero hz
        have hle : (len2 : ℚ) ≤ (len1 : ℚ) := by
          exact_mod_cast not_lt.mp h
        rw [Option.some.injEq] at hr
        subst hr
        constructor
        · exact div_nonneg (by linarith) hD.le
        · rw [div_le_one hD]
          push_cast
          linarith

end Helpers

/-- C1, counterexample.  The claim says null-sense tokens are dropped
before matrix construction, so that on `[some 0, none]` × `[some 0]` the
matrix would be the 1 × 1 matrix obtained from the usable tokens (the
spec-following `buildMatrixSpecC1` indeed produces `[[1]]`).  The code
drops nothing: it keeps the null entry, reaches
`None.path_similarity(...)` and raises, so no matrix is produced at
all (`none`). -/
theorem C1_counterexample :
    buildMatrix psOne [some 0, none] [some 0] = none
    ∧ buildMatrixSpecC1 psOne [some 0, none] [some 0] = [[1]] := by
  constructor
  · decide
  · decide

/-- C1, amended.  No null-sense filtering happens: whenever the
similarity matrix is successfully constructed it has exactly `len_A` rows
and `len_B` columns — the full sensed-token counts, null entries
included, the same counts `sentsem` uses for normalization — and
construction fails (the `None.path_similarity` attribute access raises)
as soon as a null sense has to be paired with a token of a nonempty
opposite side. -/
theorem C1_theorem {σ : Type} (ps : σ → σ → Option ℚ) (l1 l2 : List (Option σ)) :
    (∀ M, buildMatrix ps l1 l2 = some M →
        M.length = l1.length ∧ ∀ row ∈ M, row.length = l2.length)
    ∧ (none ∈ l1 → l2 ≠ [] → buildMatrix ps l1 l2 = none)
    ∧ (none ∈ l2 → l1 ≠ [] → buildMatrix ps l1 l2 = none) := by
  refine ⟨?_, ?_, ?_⟩
  · intro M hM
    refine ⟨mapOpt_length hM, ?_⟩
    intro row hrow
    obtain ⟨o1, _, hrow'⟩ := mapOpt_mem hM row hrow
    exact mapOpt_length hrow'
  · intro hmem hne
    apply mapOpt_none_of_mem hmem
    cases l2 with
    | nil => exact absurd rfl hne
    | cons a t =>
      exact mapOpt_none_of_mem (List.mem_cons_self a t) (cell_none_left ps a)
  · intro hmem hne
    cases l1 with
    | nil => exact absurd rfl hne
    | cons a t =>
      apply mapOpt_none_of_mem (List.mem_cons_self a t)
      exact mapOpt_none_of_mem hmem (cell_none_right ps a)

/-- C1, witness: the amended theorem applied to the concrete input
`[some 0, none]` × `[some 1]`. -/
theorem C1_witness :
    buildMatrix psOne [some 0, none] [some 1] = none :=
  (C1_theorem psOne [some 0, none] [some 1]).2.1 (by decide) (by decide)

/-- C2, counterexample.  On the all-stopword pair the claim demands the
sentinel `some 0`; the code divides `0` by `len1 + len2 = 0` and raises
`ZeroDivisionError`, modelled as `none`. -/
theorem C2_counterexample :
    tokensOf Cbase "the of" = []
    ∧ tokensOf Cbase "a an" = []
    ∧ sentsem Cbase "the of" "a an" = none
    ∧ sentsem Cbase "the of" "a an" ≠ some 0 := by
  refine ⟨by decide, by decide, by decide, by decide⟩

/-- C2, amended.  When both input sentences reduce to zero tokens after
tokenization and stopword removal, `sentsem` raises a division error
(`ZeroDivisionError` from `(2*sim_sum)/(len1+len2)` with
`len1 + len2 == 0`), modelled as the error value `none` — it does not
return the sentinel `0.0`.  The hypothesis `hpt` records that the
external tagger maps an empty token list to an empty tagged list. -/
theorem C2_theorem {σ : Type} (C : Collab σ) (s1 s2 : String)
    (h1 : tokensOf C s1 = []) (h2 : tokensOf C s2 = [])
    (hpt : C.posTag [] = []) :
    sentsem C s1 s2 = none := by
  have ht1 : lemmedOf C s1 = [] := by
    unfold lemmedOf taggedOf
    rw [h1, hpt]
    rfl
  have ht2 : lemmedOf C s2 = [] := by
    unfold lemmedOf taggedOf
    rw [h2, hpt]
    rfl
  have hs1 : sensed1Of C s1 = [] := by
    unfold sensed1Of senseResolve
    rw [ht1]
    rfl
  have hs2 : sensed2Of C s1 s2 = [] := by
    unfold sensed2Of senseResolve
    rw [ht2]
    rfl
  unfold sentsem synsets1Of synsets2Of
  rw [hs1, hs2]
  rfl

/-- C2, witness: the amended theorem applied to the empty sentences. -/
theorem C2_witness :
    tokensOf Cbase "" = [] ∧ sentsem Cbase "" "" = none :=
  ⟨by decide, C2_theorem Cbase "" "" (by decide) (by decide) (by decide)⟩

/-- C3, counterexample.  With sentence B's single token resolving to a
null sense and sentence A nonempty, the claim says matrix construction
succeeds and the final score is 0; the code raises on the null sense, so
`sentsem` produces the error value `none`, not `some 0`. -/
theorem C3_counterexample :
    synsets2Of CW3 "cat" "dog" = [none]
    ∧ sentsem CW3 "cat" "dog" = none
    ∧ sentsem CW3 "cat" "dog" ≠ some 0 := by
  refine ⟨by decide, by decide, by decide⟩

/-- C3, amended.  Matrix construction succeeds when every sense is
concrete, with each cell equal to the path similarity and `0` where the
underlying similarity is undefined; but a null sense paired against a
nonempty other side makes construction raise (see `C1_theorem`), and the
final score is `0` when one side has zero sensed tokens while the other
side is nonempty — the all-null case errors instead. -/
theorem C3_theorem {σ : Type} (ps : σ → σ → Option ℚ) (L1 L2 : List σ)
    (M : List (List ℚ)) (n : ℕ) (hn : n ≠ 0) :
    buildMatrix ps (L1.map some) (L2.map some)
      = some (L1.map (fun a => L2.map (fun b => (ps a b).getD 0)))
    ∧ aggregate [] 0 n = some 0
    ∧ aggregate M n 0 = some 0 := by
  refine ⟨buildMatrix_map_some ps L1 L2, ?_, ?_⟩
  · unfold aggregate
    rw [if_pos (Nat.pos_of_ne_zero hn)]
    have hrow : rowMaxima [] = some [] := rfl
    rw [hrow, Option.some_bind, if_neg (by omega)]
    simp
  · unfold aggregate
    rw [if_neg (by omega)]
    have hcol : colMaxima M 0 = some [] := rfl
    rw [hcol, Option.some_bind, if_neg (by omega)]
    simp

/-- C3, witness: the amended theorem at a concrete input whose matrix
mixes a defined similarity (`1`) with an undefined one (stored as `0`). -/
theorem C3_witness :
    buildMatrix psMix ([0, 2].map some) ([2].map some) = some [[0], [1]]
    ∧ aggregate [] 0 2 = some 0
    ∧ aggregate [[0], [1]] 2 0 = some 0 := by
  have h := C3_theorem psMix [0, 2] [2] [[0], [1]] 2 (by decide)
  refine ⟨?_, h.2.1, h.2.2⟩
  rw [h.1]
  decide

/-- C4, counterexample.  `CW4.lesk` and `CW4n.lesk` agree on every query
whose context is the original sentence text `"The cat"` (both return
`none` there — the only lemma/category pairs the pipeline could submit
for this sentence are `("cat","n")` and `("cat","s")`), yet `sentsem`
distinguishes them, because the context it actually passes is the
lowercased `"the cat"`, where the two differ.  Had the disambiguator
been invoked with the original text, the two runs would have agreed. -/
theorem C4_counterexample :
    CW4.lesk "The cat" "cat" "n" = CW4n.lesk "The cat" "cat" "n"
    ∧ CW4.lesk "The cat" "cat" "s" = CW4n.lesk "The cat" "cat" "s"
    ∧ sentsem CW4 "The cat" "The cat" ≠ sentsem CW4n "The cat" "The cat" := by
  refine ⟨by decide, by decide, ?_⟩
  have hA : sentsem CW4 "The cat" "The cat" = some 1 := by
    have h1 : synsets1Of CW4 "The cat" = [some 0] := by decide
    have h2 : synsets2Of CW4 "The cat" "The cat" = [some 0] := by decide
    have hl1 : (sensed1Of CW4 "The cat").length = 1 := by decide
    have hl2 : (sensed2Of CW4 "The cat" "The cat").length = 1 := by decide
    have hm : buildMatrix CW4.pathSim [some 0] [some 0] = some [[1]] := by decide
    have hc : colMaxima [[1]] 1 = some [1] := by decide
    unfold sentsem
    rw [h1, h2, hl1, hl2, hm]
    show aggregate [[1]] 1 1 = some 1
    unfold aggregate
    rw [if_neg (by omega), hc, Option.some_bind, if_neg (by omega)]
    norm_num
  have hB : sentsem CW4n "The cat" "The cat" = none := by decide
  rw [hA, hB]
  simp

/-- C4, amended.  The disambiguation collaborator is invoked with the
lowercased input sentence text as context (the full sentence string, not
the token list and not the original capitalization), together with the
token's lemma and category: replacing `lesk` by any function that agrees
with it at the two lowercased sentence texts leaves `sentsem`
unchanged. -/
theorem C4_theorem {σ : Type} (C : Collab σ)
    (lesk' : String → String → String → Option σ) (s1 s2 : String)
    (h1 : ∀ w p, C.lesk (strLower s1) w p = lesk' (strLower s1) w p)
    (h2 : ∀ w p, C.lesk (strLower s2) w p = lesk' (strLower s2) w p) :
    sentsem C s1 s2 = sentsem { C with lesk := lesk' } s1 s2 := by
  have hs1 : sensed1Of C s1 = sensed1Of { C with lesk := lesk' } s1 := by
    unfold sensed1Of senseResolve
    exact mapCongr (fun wp _ => by rw [h1 wp.1 wp.2, h1 wp.1 "s"])
  have hs2 : sensed2Of C s1 s2 = sensed2Of { C with lesk := lesk' } s1 s2 := by
    unfold sensed2Of senseResolve
    exact mapCongr (fun wp _ => by rw [h2 wp.1 wp.2, h1 wp.1 "s"])
  unfold sentsem synsets1Of synsets2Of
  rw [hs1, hs2]

/-- C4, witness: `CW4.lesk` and `leskW4b` agree at the lowercased
context `"the cat"`, so the two runs coincide. -/
theorem C4_witness :
    sentsem CW4 "The cat" "The cat"
      = sentsem { CW4 with lesk := leskW4b } "The cat" "The cat" := by
  have hstr : strLower "The cat" = "the cat" := by decide
  refine C4_theorem CW4 leskW4b "The cat" "The cat" ?_ ?_ <;>
    exact fun w p => by rw [hstr]; rfl

/-- C5, counterexample.  A token tagged as a verb: the claim says the
lemmatizer is called with the verb hint (the spec-following
`lemmedOfSpecC5` produces the lemma `"run"`); the code calls
`lemmatizer.lemmatize(word)` with no hint and keeps `"running"`. -/
theorem C5_counterexample :
    lemmedOf CW5 "running" = [("running", "v")]
    ∧ lemmedOfSpecC5 CW5 "running" = [("run", "v")] := by
  refine ⟨by decide, by decide⟩

/-- C5, amended.  Every token is lemmatized with the no-category-hint
call, regardless of its resolved category: the category-hinted form of
the external lemmatizer is never consulted, so replacing it by an
arbitrary function changes neither the lemmatization stage nor the final
score. -/
theorem C5_theorem {σ : Type} (C : Collab σ) (f : String → String → String)
    (s1 s2 sent : String) :
    lemmedOf { C with lemmatizePos := f } sent = lemmedOf C sent
    ∧ sentsem { C with lemmatizePos := f } s1 s2 = sentsem C s1 s2 :=
  ⟨rfl, rfl⟩

/-- C6.  Sentence B's sense resolution consults the disambiguator only
through (a) primary calls whose context is sentence B's (lowercased)
text with the token's own category and (b) fallback calls whose category
is always the satellite-adjective `"s"` and whose context is sentence
A's (lowercased) text — so any `lesk'` agreeing with `lesk` on exactly
those calls yields the same `sensed2`; the second conjunct displays the
resolution formula with the asymmetric fallback context explicit. -/
theorem C6_theorem {σ : Type} (C : Collab σ)
    (lesk' : String → String → String → Option σ) (s1 s2 : String)
    (hprim : ∀ w p, C.lesk (strLower s2) w p = lesk' (strLower s2) w p)
    (hfb : ∀ w, C.lesk (strLower s1) w "s" = lesk' (strLower s1) w "s") :
    sensed2Of C s1 s2 = sensed2Of { C with lesk := lesk' } s1 s2
    ∧ sensed2Of C s1 s2 = (lemmedOf C s2).map (fun wp =>
        match C.lesk (strLower s2) wp.1 wp.2 with
        | some s => (wp.1, some s)
        | none => (wp.1, C.lesk (strLower s1) wp.1 "s")) := by
  constructor
  · unfold sensed2Of senseResolve
    exact mapCongr (fun wp _ => by rw [hprim wp.1 wp.2, hfb wp.1])
  · rfl

/-- C6, witness: with `CW6` the primary call for `"dog"` (context
`"dog"`) fails and the fallback succeeds with the satellite category at
the context of sentence A, `"the cat"`, yielding synset 7; the theorem
applied to `leskW6b` (which differs from `CW6.lesk` at non-satellite
queries on `"the cat"`) gives the same sensed list. -/
theorem C6_witness :
    sensed2Of CW6 "The cat" "dog"
      = sensed2Of { CW6 with lesk := leskW6b } "The cat" "dog"
    ∧ sensed2Of CW6 "The cat" "dog" = [("dog", some 7)] := by
  have hd : strLower "dog" = "dog" := by decide
  have hc : strLower "The cat" = "the cat" := by decide
  refine ⟨(C6_theorem CW6 leskW6b "The cat" "dog" ?_ ?_).1, by decide⟩
  · exact fun w p => by rw [hd]; rfl
  · exact fun w => by rw [hc]; rfl

/-- C7.  The aggregator takes the row-max branch exactly when
`len1 < len2` strictly (first conjunct); when `len2 ≤ len1` — in
particular at ties — it takes the column-max branch (second conjunct);
and in both branches the returned score is
`(2 * sum_of_maxima) / (len1 + len2)`. -/
theorem C7_theorem (M : List (List ℚ)) (len1 len2 : ℕ) :
    (len1 < len2 →
      aggregate M len1 len2
        = (rowMaxima M).map (fun ms => 2 * ms.sum / ((len1 + len2 : ℕ) : ℚ)))
    ∧ (len2 ≤ len1 →
      aggregate M len1 len2
        = (colMaxima M len2).bind (fun ms =>
            if len1 + len2 = 0 then none
            else some (2 * ms.sum / ((len1 + len2 : ℕ) : ℚ)))) := by
  constructor
  · intro h
    unfold aggregate
    rw [if_pos h]
    cases hms : rowMaxima M with
    | none => rfl
    | some ms =>
      rw [Option.some_bind, Option.map_some', if_neg (by omega)]
  · intro h
    unfold aggregate
    rw [if_neg (not_lt.mpr h)]

/-- C7, witness: a tie (`len1 = len2 = 2`) on a matrix whose row-maxima
sum (1) differs from its column-maxima sum (2).  The code returns the
column-branch value `1`; the row-branch formula would have produced
`1/2`, so the tie observably goes to the column branch. -/
theorem C7_witness :
    aggregate [[1, 1], [0, 0]] 2 2 = some 1
    ∧ (rowMaxima [[1, 1], [0, 0]]).map
        (fun ms => 2 * ms.sum / ((2 + 2 : ℕ) : ℚ)) = some (1 / 2) := by
  constructor
  · have h := (C7_theorem [[1, 1], [0, 0]] 2 2).2 (by omega)
    rw [h]
    have hc : colMaxima [[1, 1], [0, 0]] 2 = some [1, 1] := by decide
    rw [hc, Option.some_bind, if_neg (by omega)]
    norm_num
  · have hr : rowMaxima [[1, 1], [0, 0]] = some [1, 0] := by decide
    rw [hr, Option.map_some']
    norm_num

/-- C8.  Whenever every path-similarity value the lexical hierarchy
supplies lies in `[0,1]` and `sentsem` returns a result at all, that
result lies in `[0,1]`. -/
theorem C8_theorem {σ : Type} (C : Collab σ) (s1 s2 : String) (r : ℚ)
    (hps : ∀ a b v, C.pathSim a b = some v → 0 ≤ v ∧ v ≤ 1)
    (hr : sentsem C s1 s2 = some r) : 0 ≤ r ∧ r ≤ 1 := by
  unfold sentsem at hr
  cases hM : buildMatrix C.pathSim (synsets1Of C s1) (synsets2Of C s1 s2) with
  | none => rw [hM] at hr; cases hr
  | some M =>
    rw [hM, Option.some_bind] at hr
    have hlen : M.length = (sensed1Of C s1).length := by
      have h := mapOpt_length hM
      rwa [synsets1Of, List.length_map] at h
    exact aggregate_bounds (buildMatrix_cell_bounds hps hM) hlen hr

/-- C8, witness: the bound theorem applied to a concrete pair whose
score is 1. -/
theorem C8_witness :
    sentsem Cbase "cat" "dog" = some 1 ∧ 0 ≤ (1 : ℚ) ∧ (1 : ℚ) ≤ 1 := by
  have hsent : sentsem Cbase "cat" "dog" = some 1 := by
    have h1 : synsets1Of Cbase "cat" = [some 0] := by decide
    have h2 : synsets2Of Cbase "cat" "dog" = [some 0] := by decide
    have hl1 : (sensed1Of Cbase "cat").length = 1 := by decide
    have hl2 : (sensed2Of Cbase "cat" "dog").length = 1 := by decide
    have hm : buildMatrix Cbase.pathSim [some 0] [some 0] = some [[1]] := by decide
    have hc : colMaxima [[1]] 1 = some [1] := by decide
    unfold sentsem
    rw [h1, h2, hl1, hl2, hm]
    show aggregate [[1]] 1 1 = some 1
    unfold aggregate
    rw [if_neg (by omega), hc, Option.some_bind, if_neg (by omega)]
    norm_num
  refine ⟨hsent, C8_theorem Cbase "cat" "dog" 1 ?_ hsent⟩
  intro a b v h
  replace h : some (1 : ℚ) = some v := h
  rw [Option.some.injEq] at h
  subst h
  norm_num

/-- C9, counterexample.  The empty sentence has no surviving tokens, so
"every surviving token resolves to a concrete sense" holds vacuously,
yet `sentsem` raises the division error (`none`) instead of returning
`1.0`: the claim as stated fails on sentences with no surviving
tokens. -/
theorem C9_counterexample :
    synsets1Of CW9 "" = [] ∧ sentsem CW9 "" "" ≠ some 1 := by
  refine ⟨by decide, by decide⟩

/-- C9, amended.  For every sentence `s` with at least one surviving
token, when every surviving token resolves to a concrete sense `L`,
each sense is maximally similar (path similarity 1) to itself, and no
path similarity among the resolved senses exceeds 1, then
`sentsem s s = 1`. -/
theorem C9_theorem {σ : Type} (C : Collab σ) (s : String) (L : List σ)
    (hL : synsets1Of C s = L.map some) (hne : L ≠ [])
    (hself : ∀ a ∈ L, C.pathSim a a = some 1)
    (hbound : ∀ a ∈ L, ∀ b ∈ L, ∀ v, C.pathSim a b = some v → v ≤ 1) :
    sentsem C s s = some 1 := by
  have hL2 : synsets2Of C s s = L.map some := hL
  have hnz : L.length ≠ 0 := fun h => hne (List.length_eq_zero.mp h)
  have hlen1 : (sensed1Of C s).length = L.length := by
    have h := congrArg List.length hL
    rwa [synsets1Of, List.length_map, List.length_map] at h
  have hlen2 : (sensed2Of C s s).length = L.length := hlen1
  unfold sentsem
  rw [hL, hL2, buildMatrix_map_some, Option.some_bind, hlen1, hlen2]
  unfold aggregate
  rw [if_neg (lt_irrefl L.length)]
  have hcol :
      colMaxima (L.map (fun a => L.map (fun b => (C.pathSim a b).getD 0))) L.length
        = some ((List.range L.length).map (fun _ => (1 : ℚ))) := by
    apply mapOpt_all_some
    intro j hj
    have hjn : j < L.length := List.mem_range.mp hj
    have hcolj :
        column (L.map (fun a => L.map (fun b => (C.pathSim a b).getD 0))) j
          = L.map (fun a => (C.pathSim a (L.get ⟨j, hjn⟩)).getD 0) := by
      apply column_of_map
      intro b
      rw [List.get?_map, List.get?_eq_get hjn]
      rfl
    rw [hcolj]
    apply npMax_eq_one
    · intro x hx
      obtain ⟨a, ha, hax⟩ := List.mem_map.mp hx
      subst hax
      cases hv : C.pathSim a (L.get ⟨j, hjn⟩) with
      | none => simp
      | some v =>
        have := hbound a ha (L.get ⟨j, hjn⟩) (List.get_mem L j hjn) v hv
        simpa [hv] using this
    · apply List.mem_map.mpr
      refine ⟨L.get ⟨j, hjn⟩, List.get_mem L j hjn, ?_⟩
      rw [hself (L.get ⟨j, hjn⟩) (List.get_mem L j hjn)]
      rfl
  rw [hcol, Option.some_bind, if_neg (by omega)]
  rw [sum_map_one, List.length_range, Option.some.injEq]
  have hq : (0 : ℚ) < (L.length : ℚ) + (L.length : ℚ) := by
    have : 0 < L.length + L.length := by omega
    exact_mod_cast this
  push_cast
  rw [div_eq_one_iff_eq hq.ne']
  ring

/-- C9, witness: a two-token sentence whose tokens resolve to distinct
senses, with self-similarity 1 and cross-similarity 0. -/
theorem C9_witness : sentsem CW9 "cat dog" "cat dog" = some 1 := by
  refine C9_theorem CW9 "cat dog" [0, 1] (by decide) (by decide) ?_ ?_
  · intro a ha
    fin_cases ha <;> decide
  · intro a ha b hb v h
    replace h : (if a == b then some (1 : ℚ) else some 0) = some v := h
    split at h <;>
      · rw [Option.some.injEq] at h
        subst h
        norm_num

/-- C10.  No deduplication happens anywhere in the pipeline: stopword
filtering keeps every occurrence of a non-stopword token (its
multiplicity in `tokensOf` equals its multiplicity in the raw
tokenization), the sensed list has one entry per surviving occurrence,
the matrix has one row per occurrence (so each occurrence is counted
separately in the normalization lengths, which are these list lengths),
and the row-maxima list has one maximum per occurrence. -/
theorem C10_theorem {σ : Type} (C : Collab σ) (s w : String) (L2 : List (Option σ))
    (hw : ¬ w ∈ C.stopwords) (hpt : ∀ l, (C.posTag l).length = l.length) :
    (tokensOf C s).count w = (C.tokenize (strLower s)).count w
    ∧ (sensed1Of C s).length = (tokensOf C s).length
    ∧ (∀ M, buildMatrix C.pathSim (synsets1Of C s) L2 = some M →
        M.length = (tokensOf C s).length
        ∧ ∀ ms, rowMaxima M = some ms → ms.length = (tokensOf C s).length) := by
  have hlen : (sensed1Of C s).length = (tokensOf C s).length := by
    unfold sensed1Of senseResolve lemmedOf taggedOf
    rw [List.length_map, List.length_map, List.length_map, hpt]
  refine ⟨?_, hlen, ?_⟩
  · unfold tokensOf
    exact List.count_filter (by simp [hw])
  · intro M hM
    have hrows : M.length = (tokensOf C s).length := by
      have h := mapOpt_length hM
      rwa [synsets1Of, List.length_map, hlen] at h
    exact ⟨hrows, fun ms hms => by rw [mapOpt_length hms, hrows]⟩

/-- C10, witness: the repeated token `"cat"` keeps both occurrences
through stopword filtering, and the sensed list has one entry per
surviving occurrence (3 for `"the cat sat cat"`). -/
theorem C10_witness :
    (tokensOf Cbase "the cat sat cat").count "cat"
      = (Cbase.tokenize (strLower "the cat sat cat")).count "cat"
    ∧ (tokensOf Cbase "the cat sat cat").count "cat" = 2
    ∧ (sensed1Of Cbase "the cat sat cat").length = 3 := by
  have h := C10_theorem Cbase "the cat sat cat" "cat" ([] : List (Option ℕ))
    (by decide) (fun l => by simp [Cbase])
  exact ⟨h.1, by decide, by decide⟩

end SentSem
